import Mathlib

/-!
# Verification of the learn-blockchain chain kernel

A shallow embedding, in Lean 4, of the Go sources of the learn-blockchain
repository: transactions, blocks, Merkle trees, proof-of-work, balance
scanning, chain merge, PBFT consensus, proof-of-stake validator selection,
payment channels, and block admission.

Modelling conventions, applied uniformly:

* Go `float64` amounts are modelled as `ℚ` (exact arithmetic); all concrete
  inputs used in proofs are small decimal values on which `float64` and `ℚ`
  agree.
* Go `string` values are ASCII in this codebase (hex digests, addresses,
  decimal renderings), so byte sequences of strings are the character codes.
* Go errors (`error` values built with `fmt.Errorf`) are modelled by a
  structured error type `Err`; the Go code renders these as strings.
* Go methods that mutate a receiver are modelled as functions returning the
  updated value alongside the Go return values.
* The unbounded mining loop of `ProofOfWork.Run` and the bottom-up Merkle
  loop are modelled with explicit fuel so that every definition is executable
  and kernel-evaluable; fuel exhaustion models non-termination.
* ECDSA signature verification (`Transaction.Verify`) is not re-implemented;
  definitions that consult it take an explicit `verify : Tx → Bool`
  parameter and theorems quantify over it.
-/

namespace LearnBlockchain

/-! ## SHA-256 over byte lists

A complete executable SHA-256 (FIPS 180-4) over `List Nat` (bytes, each
`< 256`), mirroring Go's `crypto/sha256.Sum256`. 32-bit words are `Nat`
reduced modulo `2^32`.
-/

/-- `2^32`, the modulus of 32-bit words. -/
def U32 : Nat := 4294967296

/-- Reduce to a 32-bit word. -/
def w32 (n : Nat) : Nat := n % U32

/-- Rotate a 32-bit word right by `k` bits. -/
def rotr32 (x k : Nat) : Nat := w32 ((x >>> k) ||| (x <<< (32 - k)))

/-- SHA-256 `σ0` (message schedule). -/
def ssig0 (x : Nat) : Nat := (rotr32 x 7) ^^^ (rotr32 x 18) ^^^ (x >>> 3)

/-- SHA-256 `σ1` (message schedule). -/
def ssig1 (x : Nat) : Nat := (rotr32 x 17) ^^^ (rotr32 x 19) ^^^ (x >>> 10)

/-- SHA-256 `Σ0` (round function). -/
def bsig0 (x : Nat) : Nat := (rotr32 x 2) ^^^ (rotr32 x 13) ^^^ (rotr32 x 22)

/-- SHA-256 `Σ1` (round function). -/
def bsig1 (x : Nat) : Nat := (rotr32 x 6) ^^^ (rotr32 x 11) ^^^ (rotr32 x 25)

/-- SHA-256 `Ch`: for each bit, choose `y` or `z` according to `x`. -/
def chF (x y z : Nat) : Nat := (x &&& y) ^^^ ((x ^^^ 4294967295) &&& z)

/-- SHA-256 `Maj`: bitwise majority of three words. -/
def majF (x y z : Nat) : Nat := (x &&& y) ^^^ (x &&& z) ^^^ (y &&& z)

/-- The 64 SHA-256 round constants (FIPS 180-4 §4.2.2, written in decimal). -/
def K64 : List Nat :=
  [1116352408, 1899447441, 3049323471, 3921009573,
   961987163, 1508970993, 2453635748, 2870763221,
   3624381080, 310598401, 607225278, 1426881987,
   1925078388, 2162078206, 2614888103, 3248222580,
   3835390401, 4022224774, 264347078, 604807628,
   770255983, 1249150122, 1555081692, 1996064986,
   2554220882, 2821834349, 2952996808, 3210313671,
   3336571891, 3584528711, 113926993, 338241895,
   666307205, 773529912, 1294757372, 1396182291,
   1695183700, 1986661051, 2177026350, 2456956037,
   2730485921, 2820302411, 3259730800, 3345764771,
   3516065817, 3600352804, 4094571909, 275423344,
   430227734, 506948616, 659060556, 883997877,
   958139571, 1322822218, 1537002063, 1747873779,
   1955562222, 2024104815, 2227730452, 2361852424,
   2428436474, 2756734187, 3204031479, 3329325298]

/-- The initial SHA-256 hash state (FIPS 180-4 §5.3.3, written in decimal). -/
def H0 : List Nat :=
  [1779033703, 3144134277, 1013904242, 2773480762,
   1359893119, 2600822924, 528734635, 1541459225]

/-- A natural number as `k` big-endian bytes. -/
def natToBytesBE (k n : Nat) : List Nat :=
  (List.range k).map (fun i => (n >>> (8 * (k - 1 - i))) % 256)

/-- SHA-256 padding: append `0x80`, zero bytes, then the bit length as
eight big-endian bytes, reaching a multiple of 64 bytes. -/
def shaPad (msg : List Nat) : List Nat :=
  let L := msg.length
  let z := (120 - ((L + 1) % 64)) % 64
  msg ++ [128] ++ List.replicate z 0 ++ natToBytesBE 8 (8 * L)

/-- Group bytes into big-endian 32-bit words (four bytes each). -/
def bytesToWords : List Nat → List Nat
  | a :: b :: c :: d :: rest =>
      (a * 16777216 + b * 65536 + c * 256 + d) :: bytesToWords rest
  | _ => []

/-- Split into 64-byte chunks; `fuel` bounds the recursion depth and is
always called with at least the list length. -/
def chunks64 : Nat → List Nat → List (List Nat)
  | _, [] => []
  | 0, _ => []
  | fuel + 1, l => l.take 64 :: chunks64 fuel (l.drop 64)

/-- Extend a 16-word block to the 64-word message schedule; `n` counts the
remaining words to append (48 at the start). -/
def extendSchedule : List Nat → Nat → List Nat
  | ws, 0 => ws
  | ws, n + 1 =>
      let i := ws.length
      let word := w32 (ssig1 (ws.getD (i - 2) 0) + ws.getD (i - 7) 0 +
                       ssig0 (ws.getD (i - 15) 0) + ws.getD (i - 16) 0)
      extendSchedule (ws ++ [word]) n

/-- One SHA-256 round on the eight-word working state. -/
def shaRound : List Nat → Nat × Nat → List Nat
  | [a, b, c, d, e, f, g, h], (wi, ki) =>
      let t1 := w32 (h + bsig1 e + chF e f g + ki + wi)
      let t2 := w32 (bsig0 a + majF a b c)
      [w32 (t1 + t2), a, b, c, w32 (d + t1), e, f, g]
  | st, _ => st

/-- Compress one 64-byte chunk into the running hash state. -/
def compressChunk (hs chunk : List Nat) : List Nat :=
  let ws := extendSchedule (bytesToWords chunk) 48
  let st := (ws.zip K64).foldl shaRound hs
  (hs.zip st).map (fun p => w32 (p.1 + p.2))

/-- SHA-256 of a byte list, as the 32 digest bytes. -/
def sha256 (msg : List Nat) : List Nat :=
  let padded := shaPad msg
  let hs := (chunks64 padded.length padded).foldl compressChunk H0
  hs.foldr (fun w acc => natToBytesBE 4 w ++ acc) []

/-- Lowercase hex digit for a value `< 16`. -/
def hexDigit (n : Nat) : Char :=
  ("0123456789abcdef".data).getD n '0'

/-- Lowercase hex encoding of a byte list (Go `hex.EncodeToString`). -/
def hexEncode (bs : List Nat) : String :=
  String.mk (bs.foldr (fun b acc => hexDigit (b / 16) :: hexDigit (b % 16) :: acc) [])

/-- The bytes of an ASCII string (Go `[]byte(s)`; every string in this
codebase is ASCII). -/
def strBytes (s : String) : List Nat := s.data.map Char.toNat

/-- A byte list read as a big-endian integer (Go `big.Int.SetBytes`). -/
def bytesToNat (bs : List Nat) : Nat := bs.foldl (fun acc b => acc * 256 + b) 0

example : hexEncode (sha256 (strBytes "abc")) =
    "ba7816bf8f01cfea414140de5dae2223b00361a396177a9cb410ff61f20015ad" := by
  decide

/-! ## Executable rational arithmetic

Amounts (Go `float64`) are modelled as `ℚ`. Mathlib's `Rat.add`, `Rat.sub`
and `Rat.mul` are `@[irreducible]`, so the model uses its own kernel-
evaluable versions built on `mkRat`, proved equal to the ring operations;
this keeps every definition evaluable by `decide` on concrete inputs. -/

/-- Kernel-evaluable rational addition (equal to `+`, see `ratAdd_eq`). -/
def ratAdd (a b : ℚ) : ℚ := mkRat (a.num * b.den + b.num * a.den) (a.den * b.den)

/-- Kernel-evaluable rational subtraction (equal to `-`, see `ratSub_eq`). -/
def ratSub (a b : ℚ) : ℚ := mkRat (a.num * b.den - b.num * a.den) (a.den * b.den)

/-- Kernel-evaluable rational multiplication (equal to `*`, see `ratMul_eq`). -/
def ratMul (a b : ℚ) : ℚ := mkRat (a.num * b.num) (a.den * b.den)

theorem ratAdd_eq (a b : ℚ) : ratAdd a b = a + b := (Rat.add_def' a b).symm

theorem ratSub_eq (a b : ℚ) : ratSub a b = a - b := (Rat.sub_def' a b).symm

theorem ratMul_eq (a b : ℚ) : ratMul a b = a * b := by
  rw [Rat.mul_def, Rat.normalize_eq_mkRat]; rfl

/-! ## Fixed-point decimal rendering

Go renders amounts with `fmt.Sprintf("%.8f", x)` (and `%.2f` in channel
signing). For the exact rationals of this model that is: round half to even
at the given number of decimal digits, then print with a fixed-width
fractional part. All concrete amounts in this file are exactly
representable, so the `float64` and `ℚ` renderings coincide. -/

/-- Round a rational to the nearest integer, ties to even, computed on the
numerator and denominator (`fl` is the floor; `r2` is twice the remainder,
compared against the denominator to place the value relative to one half). -/
def roundHalfEven (q : ℚ) : ℤ :=
  let fl := q.num.fdiv q.den
  let r2 := 2 * (q.num - fl * q.den)
  if r2 < (q.den : ℤ) then fl
  else if (q.den : ℤ) < r2 then fl + 1
  else if fl % 2 = 0 then fl else fl + 1

/-- `fmt.Sprintf` `%.Nf` of a rational: sign, integer part, a dot, and
exactly `digits` fractional digits. -/
def fmtFixed (digits : Nat) (q : ℚ) : String :=
  let m : ℚ := if q < 0 then -q else q
  let n := (roundHalfEven (mkRat (m.num * 10 ^ digits) m.den)).toNat
  let ip := n / 10 ^ digits
  let fs := toString (n % 10 ^ digits)
  (if q < 0 then "-" else "") ++ toString ip ++ "." ++
    String.mk (List.replicate (digits - fs.length) '0') ++ fs

example : fmtFixed 8 0 = "0.00000000" := by decide
example : fmtFixed 8 (mkRat 1 2) = "0.50000000" := by decide
example : fmtFixed 2 (mkRat 39 2) = "19.50" := by decide

/-! ## Transactions (transaction.go, second revision with fees)

`Transaction` carries `From`, `To`, `Amount`, `Fee`, hex `Signature` and
`PublicKey`, and the optional `ContractData` used by the contract-enabled
chain revision. -/

/-- The transaction record. `from` and `to` are Lean keywords, hence the
quoted field names. -/
structure Tx where
  «from» : String
  «to» : String
  amount : ℚ
  fee : ℚ
  signature : String
  publicKey : String
  contractData : String
deriving DecidableEq, Repr

/-- Go `NewTransaction`: no fee, unsigned. -/
def newTransaction (fromAddr toAddr : String) (amount : ℚ) : Tx :=
  ⟨fromAddr, toAddr, amount, 0, "", "", ""⟩

/-- Go `NewTransactionWithFee`. -/
def newTransactionWithFee (fromAddr toAddr : String) (amount fee : ℚ) : Tx :=
  ⟨fromAddr, toAddr, amount, fee, "", "", ""⟩

/-- Go `Transaction.Hash`: SHA-256 of `from ++ to ++ "%.8f"(amount) ++
"%.8f"(fee)`. -/
def txHash (tx : Tx) : List Nat :=
  sha256 (strBytes (tx.«from» ++ tx.«to» ++ fmtFixed 8 tx.amount ++ fmtFixed 8 tx.fee))

/-- Go `Transaction.TotalCost`: `Amount + Fee`. -/
def totalCost (tx : Tx) : ℚ := ratAdd tx.amount tx.fee

/-! ## Blocks (block.go)

`Timestamp` is carried as its RFC3339 rendering, the only form in which
the Go code ever consumes it (hashing and display). -/

/-- The block record. -/
structure Block where
  index : Nat
  timestamp : String
  transactions : List Tx
  merkleRoot : String
  previousHash : String
  hash : String
  nonce : Nat
deriving DecidableEq, Repr

/-! ## Merkle tree (merkle.go)

`NewMerkleTree` builds leaf nodes with `NewMerkleNode(nil, nil, tx.Hash())`,
so a leaf's node hash is `SHA-256(tx.Hash())` — the transaction hash is
hashed once more. Parents hash the concatenation of the two child hashes;
an odd level duplicates its last node. -/

/-- One bottom-up level: pair nodes left to right (`i += 2`), duplicating
the last node of an odd level as its own right sibling. -/
def merkleLevelUp : List (List Nat) → List (List Nat)
  | [] => []
  | [x] => [sha256 (x ++ x)]
  | x :: y :: rest => sha256 (x ++ y) :: merkleLevelUp rest

/-- Iterate `merkleLevelUp` to a single node (`for len(nodes) > 1`);
`fuel` bounds the iteration and any value `≥ length` is enough. -/
def merkleRootFrom : Nat → List (List Nat) → Option (List Nat)
  | _, [] => none
  | _, [x] => some x
  | 0, _ => none
  | fuel + 1, l => merkleRootFrom fuel (merkleLevelUp l)

/-- The leaf hashes of `NewMerkleTree`: `SHA-256` applied to each
transaction hash (the extra hash of `NewMerkleNode` on leaf data). -/
def merkleLeaves (txs : List Tx) : List (List Nat) :=
  txs.map (fun t => sha256 (txHash t))

/-- Go `NewMerkleTree` + `GetRootHash`: hex of the root node hash, or the
empty string for an empty transaction list. -/
def getRootHash (txs : List Tx) : String :=
  match merkleRootFrom txs.length (merkleLeaves txs) with
  | none => ""
  | some h => hexEncode h

/-! ## Proof of work (proofofwork.go) -/

/-- The compile-time difficulty constant. -/
def targetBits : Nat := 16

/-- Go `NewProofOfWork` target: `1 << (256 - targetBits)`. -/
def powTarget : Nat := 1 <<< (256 - targetBits)

/-- Go `prepareData`: `Itoa(Index) + PreviousHash + RFC3339(Timestamp) +
MerkleRoot + Itoa(nonce)`. -/
def prepareData (b : Block) (nonce : Nat) : String :=
  toString b.index ++ b.previousHash ++ b.timestamp ++ b.merkleRoot ++ toString nonce

/-- The candidate digest at a nonce. -/
def powHashBytes (b : Block) (nonce : Nat) : List Nat :=
  sha256 (strBytes (prepareData b nonce))

/-- The candidate digest read as a big-endian integer
(Go `hashInt.SetBytes`). -/
def powHashInt (b : Block) (nonce : Nat) : Nat :=
  bytesToNat (powHashBytes b nonce)

/-- One iteration of the `Run` loop: at a winning nonce, the pair the Go
code returns (the nonce and the digest hex); otherwise nothing. -/
def powTry (b : Block) (nonce : Nat) : Option (Nat × String) :=
  if powHashInt b nonce < powTarget then some (nonce, hexEncode (powHashBytes b nonce))
  else none

/-- The `Run` loop skeleton over an arbitrary per-nonce test: return the
first hit counting up, within `fuel` further iterations. -/
def runLoop (tryNonce : Nat → Option (Nat × String)) : Nat → Nat → Option (Nat × String)
  | 0, nonce => tryNonce nonce
  | fuel + 1, nonce =>
      match tryNonce nonce with
      | some r => some r
      | none => runLoop tryNonce fuel (nonce + 1)

/-- Go `ProofOfWork.Run`, counting nonces up from `nonce`; the Go loop is
unbounded, `fuel` bounds how many further nonces may be tried and `none`
models a search that has not yet succeeded. -/
def powRunFrom (b : Block) (fuel nonce : Nat) : Option (Nat × String) :=
  runLoop (powTry b) fuel nonce

/-- Go `ProofOfWork.Run` from nonce 0. -/
def powRun (b : Block) (fuel : Nat) : Option (Nat × String) :=
  powRunFrom b fuel 0

/-- Go `ProofOfWork.Validate`: recompute the digest at the stored nonce and
compare against the target. -/
def powValidate (b : Block) : Bool :=
  powHashInt b b.nonce < powTarget

/-- Go `Block.CalculateHash`: the same record as `prepareData` at the stored
nonce, hashed by the global `CalculateHash` (network.go). -/
def calculateHash (b : Block) : String :=
  hexEncode (sha256 (strBytes (prepareData b b.nonce)))

set_option maxRecDepth 40000 in
example : getRootHash [newTransaction "" "Genesis" 0] =
    "4c4e9b912df56a7ede984781a59f32f19c75fa030d5ff22dcf4ff11195a4d1c1" := by decide

/-! ## Errors

Go builds error values with `fmt.Errorf`; the model represents each
distinct error site by a constructor (with the data the Go message
interpolates where it matters to a claim). -/

deriving instance DecidableEq for Except

/-- The error kinds of the modelled operations. -/
inductive Err where
  | insufficientBalance (address : String) (balance amount fee : ℚ)
  | invalidSignature
  | emptyBlockchain
  | invalidBlockchain
  | noBlocks
  | miningExhausted
  | channelClosed
  | totalBalanceChanged
  | negativeBalance
  | bothSignaturesRequired
  | invalidSequenceNumber
  | signerNotParticipant
  | senderNotParticipant
  | insufficientChannelBalance
  | depositsMustBePositive
  | participant1InsufficientBalance
  | participant2InsufficientBalance
  | onlyPrimaryCanPrePrepare
  | invalidStateForPhase
  | seqOrViewMismatch
  | blockHashMismatch
  | prePrepareNotFromPrimary
  | prePrepareNotCompleted
  | prepareNotCompleted
deriving DecidableEq, Repr

/-! ## The chain state (blockchain.go, contract-enabled revision)

The `Blockchain` record of the source also owns a `ContractRegistry` and a
`ChannelManager`; neither is consulted by the operations the claims range
over (contract execution touches only the registry, and the channel manager
holds a back-reference used for balance queries), so the model carries the
block list and the mempool and treats the payment-channel subsystem
separately, handing it the chain by argument. The mempool is the map from
hex transaction hash to transaction, as an association list. -/

/-- Chain state: blocks plus mempool. -/
structure Blockchain where
  blocks : List Block
  mempool : List (String × Tx)
deriving DecidableEq, Repr

/-! ## Balances (balance.go) -/

/-- The body of `GetBalance`'s inner loop: skip the genesis transaction,
subtract amount and fee when the address is the sender, add the amount
when it is the receiver. -/
def balanceTxStep (address : String) (bal : ℚ) (tx : Tx) : ℚ :=
  if tx.«from» = "" ∧ tx.«to» = "Genesis" then bal
  else
    let bal1 := if tx.«from» = address then ratSub (ratSub bal tx.amount) tx.fee else bal
    if tx.«to» = address then ratAdd bal1 tx.amount else bal1

/-- `GetBalance`'s outer loop body: scan one block's transactions. -/
def balanceBlockStep (address : String) (bal : ℚ) (block : Block) : ℚ :=
  block.transactions.foldl (balanceTxStep address) bal

/-- Go `Blockchain.GetBalance`: linear scan of every transaction of every
block, from balance 0. -/
def getBalance (bc : Blockchain) (address : String) : ℚ :=
  bc.blocks.foldl (balanceBlockStep address) 0

/-- Go `Blockchain.ValidateTransaction`: unconditional acceptance for
coinbase (`From == ""`), otherwise the sender's balance must cover
`TotalCost`. -/
def validateTransaction (bc : Blockchain) (tx : Tx) : Except Err Unit :=
  if tx.«from» = "" then .ok ()
  else
    let balance := getBalance bc tx.«from»
    if balance < totalCost tx then
      .error (.insufficientBalance tx.«from» balance tx.amount tx.fee)
    else .ok ()

/-! ## Rewards (rewards.go) -/

/-- The per-block miner reward constant. -/
def blockReward : ℚ := 50

/-- The genesis reward constant. -/
def initialBlockReward : ℚ := 100

/-- Go `NewBlockRewardTransaction`: a coinbase paying the miner 50 coins,
or 100 when `isGenesis`. -/
def newBlockRewardTransaction (minerAddress : String) (isGenesis : Bool) : Tx :=
  newTransaction "" minerAddress (if isGenesis then initialBlockReward else blockReward)

/-! ## Mempool (mempool.go)

Only the operations the claims exercise are modelled. -/

/-- Go `Mempool.RemoveTransactions`: delete each listed hash key. -/
def mempoolRemove (mp : List (String × Tx)) (txHashes : List String) : List (String × Tx) :=
  txHashes.foldl (fun m h => m.filter (fun kv => kv.1 ≠ h)) mp

/-! ## Block admission (blockchain.go) -/

/-- One transaction's admission check inside `AddBlockWithReward`'s leading
loop: the balance validation error, or the invalid-signature error for a
signed transaction `Verify` rejects. `verify` stands for
`Transaction.Verify` (ECDSA, not re-implemented). -/
def txCheck (verify : Tx → Bool) (bc : Blockchain) (tx : Tx) : Option Err :=
  match validateTransaction bc tx with
  | .error e => some e
  | .ok () =>
      if tx.signature ≠ "" ∧ verify tx = false then some .invalidSignature
      else none

/-- The validation loop heading `AddBlockWithReward`: the first balance or
signature failure, in input order. -/
def firstTxError (verify : Tx → Bool) (bc : Blockchain) (txs : List Tx) : Option Err :=
  txs.findSome? (txCheck verify bc)

/-- The tail of `AddBlockWithReward` past validation: build the next block
over `allTransactions` (the input list, plus a prepended reward when a
miner was named), mine it, append it, and evict the input transactions
from the mempool. -/
def minePhase (bc : Blockchain) (transactions allTransactions : List Tx) (ts : String)
    (fuel : Nat) (prevBlock : Block) : Except Err Unit × Blockchain :=
  let newBlock : Block :=
    ⟨prevBlock.index + 1, ts, allTransactions, getRootHash allTransactions,
     prevBlock.hash, "", 0⟩
  match powRun newBlock fuel with
  | none => (.error .miningExhausted, bc)
  | some (nonce, hash) =>
      (.ok (), ⟨bc.blocks ++ [{ newBlock with nonce := nonce, hash := hash }],
        mempoolRemove bc.mempool (transactions.map fun tx => hexEncode (txHash tx))⟩)

/-- Go `Blockchain.AddBlockWithReward`: validate every transaction, then
prepend the miner reward when a miner address is given, recompute the
Merkle root, build the next block, mine it, append it, and evict the input
transactions from the mempool. `ts` is the new block's timestamp
(`time.Now()` rendered RFC3339) and `fuel` bounds the mining loop. The
contract-call pass of the source touches only the contract registry and is
not modelled. The Go code indexes `Blocks[len-1]` and would panic on an
empty chain; the model returns an error there, unreachable after genesis
construction. -/
def addBlockWithReward (verify : Tx → Bool) (bc : Blockchain) (transactions : List Tx)
    (minerAddress ts : String) (fuel : Nat) : Except Err Unit × Blockchain :=
  match firstTxError verify bc transactions with
  | some e => (.error e, bc)
  | none =>
      match bc.blocks.getLast? with
      | none => (.error .noBlocks, bc)
      | some prevBlock =>
          minePhase bc transactions
            (if minerAddress ≠ "" then
              newBlockRewardTransaction minerAddress false :: transactions
             else transactions) ts fuel prevBlock

/-- Go `Blockchain.CreateGenesisBlock`: a single block at index 0 holding
the zero-amount transaction to "Genesis", previous hash "0", mined by
proof of work. `none` models the mining loop still searching at `fuel`. -/
def createGenesisBlock (ts : String) (fuel : Nat) : Option Block :=
  let transactions := [newTransaction "" "Genesis" 0]
  let genesisBlock : Block :=
    ⟨0, ts, transactions, getRootHash transactions, "0", "", 0⟩
  match powRun genesisBlock fuel with
  | none => none
  | some (nonce, hash) => some { genesisBlock with nonce := nonce, hash := hash }

/-! ## Chain synchronisation (smartcontract.go, sync revision) -/

/-- One block's checks inside `validateBlockchain`: recomputed Merkle root,
signature verification for non-genesis positions, stored hash against the
canonical hash, predecessor link, and proof of work. -/
def blockOk (verify : Tx → Bool) (prev : Option Block) (b : Block) : Bool :=
  (b.merkleRoot == getRootHash b.transactions) &&
  (match prev with
   | none => true
   | some p =>
       b.transactions.all (fun tx => tx.signature == "" || verify tx) &&
       (b.previousHash == p.hash)) &&
  (b.hash == calculateHash b) &&
  powValidate b

/-- The indexed loop of `validateBlockchain`, carrying the predecessor. -/
def validateFrom (verify : Tx → Bool) : Option Block → List Block → Bool
  | _, [] => true
  | prev, b :: rest => blockOk verify prev b && validateFrom verify (some b) rest

/-- Go `validateBlockchain`: non-empty, genesis at index 0 with previous
hash "0", and every block passing `blockOk` against its predecessor. -/
def validateBlockchain (verify : Tx → Bool) (blocks : List Block) : Bool :=
  match blocks with
  | [] => false
  | b0 :: _ =>
      (b0.index == 0) && (b0.previousHash == "0") && validateFrom verify none blocks

/-- Go `Blockchain.MergeBlockchain`: reject an empty or invalid candidate;
replace the local chain exactly when the candidate is strictly longer. -/
def mergeBlockchain (verify : Tx → Bool) (bc : Blockchain) (receivedBlocks : List Block) :
    Except Err Unit × Blockchain :=
  if receivedBlocks.isEmpty then (.error .emptyBlockchain, bc)
  else if ¬ validateBlockchain verify receivedBlocks then (.error .invalidBlockchain, bc)
  else if bc.blocks.length < receivedBlocks.length then
    (.ok (), { bc with blocks := receivedBlocks })
  else (.ok (), bc)

/-! Concrete mined blocks used by witnesses below: timestamps searched so
that nonce 0 already meets the target. -/

/-- A timestamp at which the genesis block mines at nonce 0. -/
def genesisTs : String := "2024-01-02T04:19:58Z"

/-- The genesis block hash at `genesisTs`. -/
def genesisHash : String :=
  "00005e9bc5e395dcc03bc58a7bf982d4dd1b0e1e39a07b049683feac13458476"

set_option maxRecDepth 100000 in
example : createGenesisBlock genesisTs 0 =
    some ⟨0, genesisTs, [newTransaction "" "Genesis" 0],
      "4c4e9b912df56a7ede984781a59f32f19c75fa030d5ff22dcf4ff11195a4d1c1",
      "0", genesisHash, 0⟩ := by decide

/-! ## PBFT consensus (the PBFT consensus source file)

The consensus instance and its six operations, with the mutex dropped
(each Go method holds the instance lock for its whole body, so methods are
the atomic steps of the state machine). Message timestamps (`time.Now()`)
are passed in as strings. -/

/-- Go `PBFTMessageType`. -/
inductive PBFTMsgType where
  | prePrepare
  | prepare
  | commit
  | viewChange
deriving DecidableEq, Repr

/-- The string form of a message type (used by `signMessage`). -/
def msgTypeStr : PBFTMsgType → String
  | .prePrepare => "pre-prepare"
  | .prepare => "prepare"
  | .commit => "commit"
  | .viewChange => "view-change"

/-- Go `PBFTMessage`. -/
structure PBFTMessage where
  type : PBFTMsgType
  blockHash : String
  nodeID : String
  sequence : Int
  viewID : Int
  timestamp : String
  signature : String
deriving DecidableEq, Repr

/-- Go `PBFTState`. -/
inductive PBFTState where
  | idle
  | prePrepare
  | prepare
  | commit
  | finalized
deriving DecidableEq, Repr

/-- Go `PBFT`: a consensus instance. -/
structure PBFT where
  nodeID : String
  nodes : List String
  block : Block
  state : PBFTState
  viewID : Int
  sequence : Int
  messages : List PBFTMessage
  prepareCount : Nat
  commitCount : Nat
  requiredVotes : Nat
  totalNodes : Nat
  prePrepared : Bool
  prepared : Bool
  committed : Bool
deriving DecidableEq, Repr

/-- Go `NewPBFT`: `f = (totalNodes-1)/3`, `requiredVotes = 2f+1` (for
`totalNodes = 0` Go's `(-1)/3` truncates to 0, as does the `Nat`
subtraction here). -/
def newPBFT (nodeID : String) (nodes : List String) (block : Block) (sequence : Int) : PBFT :=
  let totalNodes := nodes.length
  let f := (totalNodes - 1) / 3
  ⟨nodeID, nodes, block, .idle, 0, sequence, [], 0, 0, 2 * f + 1, totalNodes, false, false, false⟩

/-- Go `GetPrimaryNode`: `Nodes[int(ViewID) % len(Nodes)]` (Go `%`
truncates, hence `Int.tmod`; an empty node list, where Go would panic,
yields `""`). -/
def getPrimaryNode (p : PBFT) : String :=
  p.nodes.getD (Int.tmod p.viewID p.nodes.length).toNat ""

/-- Go `IsPrimary`. -/
def isPrimary (p : PBFT) : Bool := p.nodeID == getPrimaryNode p

/-- Go `signMessage`: SHA-256 of `"type:blockHash:nodeID:sequence:viewID"`. -/
def signMessage (p : PBFT) (msgType : PBFTMsgType) (blockHash : String) : String :=
  hexEncode (sha256 (strBytes (msgTypeStr msgType ++ ":" ++ blockHash ++ ":" ++
    p.nodeID ++ ":" ++ toString p.sequence ++ ":" ++ toString p.viewID)))

/-- Go `PrePreparePhase` (primary only, from `idle`). -/
def prePreparePhase (p : PBFT) (ts : String) : Except Err PBFTMessage × PBFT :=
  if ¬ isPrimary p then (.error .onlyPrimaryCanPrePrepare, p)
  else if p.state ≠ .idle then (.error .invalidStateForPhase, p)
  else
    let msg : PBFTMessage :=
      ⟨.prePrepare, p.block.hash, p.nodeID, p.sequence, p.viewID, ts,
       signMessage p .prePrepare p.block.hash⟩
    (.ok msg, { p with messages := p.messages ++ [msg], state := .prePrepare, prePrepared := true })

/-- Go `ProcessPrePrepare` (replicas, message must come from the primary
and match sequence, view and block hash). -/
def processPrePrepare (p : PBFT) (msg : PBFTMessage) : Except Err Unit × PBFT :=
  if msg.nodeID ≠ getPrimaryNode p then (.error .prePrepareNotFromPrimary, p)
  else if msg.sequence ≠ p.sequence ∨ msg.viewID ≠ p.viewID then (.error .seqOrViewMismatch, p)
  else if msg.blockHash ≠ p.block.hash then (.error .blockHashMismatch, p)
  else (.ok (), { p with messages := p.messages ++ [msg], state := .prePrepare, prePrepared := true })

/-- Go `PreparePhase`: broadcast one's own prepare, incrementing the
prepare counter. -/
def preparePhase (p : PBFT) (ts : String) : Except Err PBFTMessage × PBFT :=
  if ¬ p.prePrepared then (.error .prePrepareNotCompleted, p)
  else if p.state ≠ .prePrepare then (.error .invalidStateForPhase, p)
  else
    let msg : PBFTMessage :=
      ⟨.prepare, p.block.hash, p.nodeID, p.sequence, p.viewID, ts,
       signMessage p .prepare p.block.hash⟩
    (.ok msg,
      { p with
          messages := p.messages ++ [msg]
          prepareCount := p.prepareCount + 1
          state := .prepare })

/-- Go `ProcessPrepare`: reject mismatches, ignore a duplicate prepare from
the same node, otherwise count it; at `requiredVotes` mark `prepared`
(the source's state write there assigns `StatePrepare` to itself). -/
def processPrepare (p : PBFT) (msg : PBFTMessage) : Except Err Unit × PBFT :=
  if msg.sequence ≠ p.sequence ∨ msg.viewID ≠ p.viewID then (.error .seqOrViewMismatch, p)
  else if msg.blockHash ≠ p.block.hash then (.error .blockHashMismatch, p)
  else if p.messages.any (fun m => m.type == .prepare && m.nodeID == msg.nodeID) then (.ok (), p)
  else
    let p' := { p with messages := p.messages ++ [msg], prepareCount := p.prepareCount + 1 }
    if p'.requiredVotes ≤ p'.prepareCount then (.ok (), { p' with prepared := true })
    else (.ok (), p')

/-- Go `CommitPhase`: broadcast one's own commit, incrementing the commit
counter; requires `prepared` and the `prepare` state. -/
def commitPhase (p : PBFT) (ts : String) : Except Err PBFTMessage × PBFT :=
  if ¬ p.prepared then (.error .prepareNotCompleted, p)
  else if p.state ≠ .prepare then (.error .invalidStateForPhase, p)
  else
    let msg : PBFTMessage :=
      ⟨.commit, p.block.hash, p.nodeID, p.sequence, p.viewID, ts,
       signMessage p .commit p.block.hash⟩
    (.ok msg,
      { p with
          messages := p.messages ++ [msg]
          commitCount := p.commitCount + 1
          state := .commit })

/-- Go `ProcessCommit`: reject mismatches, ignore a duplicate commit from
the same node, otherwise count it; at `requiredVotes` mark `committed` and
move to `finalized`. -/
def processCommit (p : PBFT) (msg : PBFTMessage) : Except Err Unit × PBFT :=
  if msg.sequence ≠ p.sequence ∨ msg.viewID ≠ p.viewID then (.error .seqOrViewMismatch, p)
  else if msg.blockHash ≠ p.block.hash then (.error .blockHashMismatch, p)
  else if p.messages.any (fun m => m.type == .commit && m.nodeID == msg.nodeID) then (.ok (), p)
  else
    let p' := { p with messages := p.messages ++ [msg], commitCount := p.commitCount + 1 }
    if p'.requiredVotes ≤ p'.commitCount then
      (.ok (), { p' with committed := true, state := .finalized })
    else (.ok (), p')

/-- Go `IsFinalized`. -/
def isFinalized (p : PBFT) : Bool := p.committed && p.state == .finalized

/-- The PBFT instances reachable from `NewPBFT` by the six instance
methods (with any arguments, i.e. any messages a peer might send). -/
inductive PBFTReachable : PBFT → Prop where
  | new (nodeID : String) (nodes : List String) (block : Block) (sequence : Int) :
      PBFTReachable (newPBFT nodeID nodes block sequence)
  | prePrep (p : PBFT) (ts : String) :
      PBFTReachable p → PBFTReachable (prePreparePhase p ts).2
  | procPrePrep (p : PBFT) (m : PBFTMessage) :
      PBFTReachable p → PBFTReachable (processPrePrepare p m).2
  | prep (p : PBFT) (ts : String) :
      PBFTReachable p → PBFTReachable (preparePhase p ts).2
  | procPrep (p : PBFT) (m : PBFTMessage) :
      PBFTReachable p → PBFTReachable (processPrepare p m).2
  | commitPh (p : PBFT) (ts : String) :
      PBFTReachable p → PBFTReachable (commitPhase p ts).2
  | procCommit (p : PBFT) (m : PBFTMessage) :
      PBFTReachable p → PBFTReachable (processCommit p m).2

/-! ## Proof of stake (the PoS source file)

`Stakeholders` is a Go `map[string]float64`; Go's `range` visits a map in
an unspecified (deliberately randomized) order, so the model carries the
table as an association list whose order stands for the iteration order of
one `range` loop. -/

/-- Go `ProofOfStake`. -/
structure ProofOfStake where
  block : Block
  stakeholders : List (String × ℚ)
deriving DecidableEq, Repr

/-- The accumulation loop of `SelectValidator`: add each stake to the
running sum and return the first address whose running sum reaches
`randomValue`. -/
def posWalk (randomValue : ℚ) : ℚ → List (String × ℚ) → Option String
  | _, [] => none
  | currentSum, kv :: rest =>
      let currentSum := ratAdd currentSum kv.2
      if randomValue ≤ currentSum then some kv.1 else posWalk randomValue currentSum rest

/-- Go `SelectValidator`: hash `PreviousHash ++ MerkleRoot`, read it as a
big integer, divide by `1e38` and multiply by the total stake (`big.Float`
arithmetic, modelled exactly over `ℚ`), then walk the stake table; if no
entry is reached, fall back to the first stakeholder of (another) map
iteration. The comment in the source calls this "deterministic selection";
the map iteration order is an input here. -/
def selectValidator (pos : ProofOfStake) : String :=
  if pos.stakeholders.isEmpty then ""
  else
    let totalStake := pos.stakeholders.foldl (fun acc kv => ratAdd acc kv.2) 0
    if totalStake = 0 then ""
    else
      let seed := pos.block.previousHash ++ pos.block.merkleRoot
      let hashInt := bytesToNat (sha256 (strBytes seed))
      let randomValue := ratMul (Rat.divInt hashInt ((10 : ℤ) ^ 38)) totalStake
      match posWalk randomValue 0 pos.stakeholders with
      | some address => address
      | none =>
          match pos.stakeholders with
          | [] => ""
          | kv :: _ => kv.1

/-! ## Payment channels (the payment-channel source file)

The channel manager's `Channels` map registration is not consulted by any
claimed property; `CreateChannel` is modelled as returning the channel.
`time.Now()` appears twice in the source (`UnixNano` inside the channel id
and the RFC3339-style state timestamps); both are inputs here. -/

/-- Go `ChannelState`. -/
structure ChannelState where
  channelID : String
  participant1 : String
  participant2 : String
  balance1 : ℚ
  balance2 : ℚ
  sequenceNumber : Int
  nonce : Int
  timestamp : String
  isClosed : Bool
  closingTxHash : String
deriving DecidableEq, Repr

/-- Go `ChannelSignature`. -/
structure ChannelSignature where
  state : ChannelState
  signature1 : String
  signature2 : String
deriving DecidableEq, Repr

/-- Go `PaymentChannel` (the blockchain back-reference is passed by
argument where needed; the mutex is dropped as for PBFT). -/
structure PaymentChannel where
  state : ChannelState
  initialState : ChannelState
  depositAmount : ℚ
  multiSigAddress : String
  timeout : Int
  createdAt : String
  lastUpdate : String
  pendingUpdates : List ChannelState
  updateHistory : List ChannelState
deriving DecidableEq, Repr

/-- Go `generateChannelID`: SHA-256 of `"p1:p2:unixNano"`. -/
def generateChannelID (participant1 participant2 : String) (tsNano : Int) : String :=
  hexEncode (sha256 (strBytes (participant1 ++ ":" ++ participant2 ++ ":" ++ toString tsNano)))

/-- Go `generateMultisigAddress`: `"M"` plus the first 40 hex characters of
SHA-256 of `"multisig:p1:p2:channelID"`. -/
def generateMultisigAddress (participant1 participant2 channelID : String) : String :=
  "M" ++ (hexEncode (sha256 (strBytes
    ("multisig:" ++ participant1 ++ ":" ++ participant2 ++ ":" ++ channelID)))).take 40

/-- Go `signChannelState`: SHA-256 of
`"channelID:%.2f(balance1):%.2f(balance2):sequence:signer"`. -/
def signChannelState (state : ChannelState) (signer : String) : String :=
  hexEncode (sha256 (strBytes (state.channelID ++ ":" ++ fmtFixed 2 state.balance1 ++ ":" ++
    fmtFixed 2 state.balance2 ++ ":" ++ toString state.sequenceNumber ++ ":" ++ signer)))

/-- Go `ChannelManager.CreateChannel`: positive deposits, on-chain balance
cover, initial state at sequence 0. -/
def createChannel (bc : Blockchain) (participant1 participant2 : String) (deposit1 deposit2 : ℚ)
    (timeout tsNano : Int) (ts : String) : Except Err PaymentChannel :=
  if deposit1 ≤ 0 ∨ deposit2 ≤ 0 then .error .depositsMustBePositive
  else
    let balance1 := getBalance bc participant1
    let balance2 := getBalance bc participant2
    if balance1 < deposit1 then .error .participant1InsufficientBalance
    else if balance2 < deposit2 then .error .participant2InsufficientBalance
    else
      let channelID := generateChannelID participant1 participant2 tsNano
      let initialState : ChannelState :=
        ⟨channelID, participant1, participant2, deposit1, deposit2, 0, 0, ts, false, ""⟩
      .ok ⟨initialState, initialState, ratAdd deposit1 deposit2,
           generateMultisigAddress participant1 participant2 channelID,
           timeout, ts, ts, [], [initialState]⟩

/-- Go `PaymentChannel.UpdateState`: propose a next state preserving the
balance total, both balances non-negative, sequence and nonce advanced;
the proposal joins `PendingUpdates` and the current state is untouched. -/
def updateState (pc : PaymentChannel) (newBalance1 newBalance2 : ℚ) (ts : String) :
    Except Err ChannelState × PaymentChannel :=
  if pc.state.isClosed then (.error .channelClosed, pc)
  else
    let total := ratAdd pc.state.balance1 pc.state.balance2
    if ratAdd newBalance1 newBalance2 ≠ total then (.error .totalBalanceChanged, pc)
    else if newBalance1 < 0 ∨ newBalance2 < 0 then (.error .negativeBalance, pc)
    else
      let newState : ChannelState :=
        ⟨pc.state.channelID, pc.state.participant1, pc.state.participant2,
         newBalance1, newBalance2, pc.state.sequenceNumber + 1, pc.state.nonce + 1,
         ts, false, ""⟩
      (.ok newState, { pc with pendingUpdates := pc.pendingUpdates ++ [newState] })

/-- Go `PaymentChannel.SignState`: the signer must be a participant of the
signed state; the signature is `signChannelState`. -/
def signState (_pc : PaymentChannel) (state : ChannelState) (signer : String) :
    Except Err String :=
  if signer ≠ state.participant1 ∧ signer ≠ state.participant2 then
    .error .signerNotParticipant
  else .ok (signChannelState state signer)

/-- Go `PaymentChannel.CommitState`: channel open, both signature strings
non-empty, sequence strictly above the current one; then the carried state
becomes the current state, joins the history, and pending proposals are
cleared. No other property of the carried state is checked. -/
def commitState (pc : PaymentChannel) (signedState : ChannelSignature) (ts : String) :
    Except Err Unit × PaymentChannel :=
  if pc.state.isClosed then (.error .channelClosed, pc)
  else if signedState.signature1 = "" ∨ signedState.signature2 = "" then
    (.error .bothSignaturesRequired, pc)
  else if signedState.state.sequenceNumber ≤ pc.state.sequenceNumber then
    (.error .invalidSequenceNumber, pc)
  else
    (.ok (),
      { pc with
          state := signedState.state
          lastUpdate := ts
          updateHistory := pc.updateHistory ++ [signedState.state]
          pendingUpdates := [] })

/-- Go `PaymentChannel.MicroPayment`: derive the next proposed state from
the current balances and the sender direction; the current state is not
modified (committing is a separate call). -/
def microPayment (pc : PaymentChannel) (sender : String) (amount : ℚ) (ts : String) :
    Except Err ChannelState :=
  if pc.state.isClosed then .error .channelClosed
  else if sender = pc.state.participant1 then
    if pc.state.balance1 < amount then .error .insufficientChannelBalance
    else .ok ⟨pc.state.channelID, pc.state.participant1, pc.state.participant2,
              ratSub pc.state.balance1 amount, ratAdd pc.state.balance2 amount,
              pc.state.sequenceNumber + 1, pc.state.nonce + 1, ts, false, ""⟩
  else if sender = pc.state.participant2 then
    if pc.state.balance2 < amount then .error .insufficientChannelBalance
    else .ok ⟨pc.state.channelID, pc.state.participant1, pc.state.participant2,
              ratAdd pc.state.balance1 amount, ratSub pc.state.balance2 amount,
              pc.state.sequenceNumber + 1, pc.state.nonce + 1, ts, false, ""⟩
  else .error .senderNotParticipant

/-! # Claims -/

/-! ## C1 — balance is the signed sum over all transactions -/

/-- Whether the scan skips this transaction (the genesis transaction). -/
def isGenesisTx (tx : Tx) : Bool := tx.«from» == "" && tx.«to» == "Genesis"

/-- The claim's per-transaction contribution: plus the amount when the
address receives, minus amount plus fee when it sends. -/
def txContribution (address : String) (tx : Tx) : ℚ :=
  (if tx.«to» = address then tx.amount else 0) -
  (if tx.«from» = address then tx.amount + tx.fee else 0)

/-- The claim's reference balance: the sum of the contributions of every
non-genesis transaction of every block, in order. -/
def balanceSpec (bc : Blockchain) (address : String) : ℚ :=
  (((bc.blocks.map Block.transactions).flatten.filter (fun tx => !(isGenesisTx tx))).map
    (txContribution address)).sum

theorem balanceTxStep_eq (a : String) (bal : ℚ) (tx : Tx) :
    balanceTxStep a bal tx = bal + (if isGenesisTx tx then 0 else txContribution a tx) := by
  by_cases h : tx.«from» = "" ∧ tx.«to» = "Genesis"
  · have hb : isGenesisTx tx = true := by simp [isGenesisTx, h.1, h.2]
    simp [balanceTxStep, h, hb]
  · have hb : isGenesisTx tx = false := by
      rcases not_and_or.mp h with h1 | h1 <;> simp [isGenesisTx, h1]
    simp only [balanceTxStep, if_neg h, hb, if_false, Bool.false_eq_true]
    by_cases hf : tx.«from» = a <;> by_cases ht : tx.«to» = a <;>
      simp [hf, ht, ratSub_eq, ratAdd_eq, txContribution] <;> ring

theorem foldl_balanceTxStep (a : String) (l : List Tx) (bal : ℚ) :
    l.foldl (balanceTxStep a) bal =
      bal + ((l.filter (fun tx => !(isGenesisTx tx))).map (txContribution a)).sum := by
  induction l generalizing bal with
  | nil => simp
  | cons tx rest ih =>
      rw [List.foldl_cons, ih, balanceTxStep_eq]
      by_cases hb : isGenesisTx tx <;> simp [List.filter_cons, hb] <;> try ring

theorem foldl_balanceBlockStep (a : String) (bs : List Block) (bal : ℚ) :
    bs.foldl (balanceBlockStep a) bal =
      bal + (((bs.map Block.transactions).flatten.filter (fun tx => !(isGenesisTx tx))).map
        (txContribution a)).sum := by
  induction bs generalizing bal with
  | nil => simp
  | cons b rest ih =>
      rw [List.foldl_cons]
      show rest.foldl (balanceBlockStep a) (b.transactions.foldl (balanceTxStep a) bal) = _
      rw [ih, foldl_balanceTxStep]
      simp [List.filter_append, List.sum_append]
      ring

/-- C1. For every chain state and every address `a`, `GetBalance a` equals
the sum over all blocks, in order, of minus `amount + fee` for each
transaction sent by `a` plus `amount` for each transaction received by
`a`, the genesis transaction (`from == ""` and `to == "Genesis"`) being
skipped. -/
theorem getBalance_eq_balanceSpec (bc : Blockchain) (a : String) :
    getBalance bc a = balanceSpec bc a := by
  unfold getBalance balanceSpec
  rw [foldl_balanceBlockStep]
  simp

/-! ## C2 — transaction validation accepts coinbase and solvent senders -/

/-- C2. `ValidateTransaction` succeeds unconditionally for `From == ""`;
for any other transaction it succeeds exactly when the sender's balance
covers `Amount + Fee`, and otherwise returns the insufficient-balance
error carrying the sender, its balance, the amount and the fee. -/
theorem validateTransaction_spec (bc : Blockchain) (tx : Tx) :
    (validateTransaction bc tx = .ok () ↔
      (tx.«from» = "" ∨ tx.amount + tx.fee ≤ getBalance bc tx.«from»)) ∧
    (validateTransaction bc tx ≠ .ok () →
      validateTransaction bc tx =
        .error (.insufficientBalance tx.«from» (getBalance bc tx.«from») tx.amount tx.fee)) := by
  have hcost : totalCost tx = tx.amount + tx.fee := ratAdd_eq _ _
  by_cases h1 : tx.«from» = ""
  · have hval : validateTransaction bc tx = .ok () := by simp [validateTransaction, h1]
    refine ⟨by simp [hval, h1], fun hne => absurd hval hne⟩
  · by_cases h2 : getBalance bc tx.«from» < totalCost tx
    · have hval : validateTransaction bc tx =
          .error (.insufficientBalance tx.«from» (getBalance bc tx.«from») tx.amount tx.fee) := by
        simp [validateTransaction, h1, h2]
      rw [hcost] at h2
      exact ⟨by simp [hval, h1, not_le.mpr h2], fun _ => hval⟩
    · have hval : validateTransaction bc tx = .ok () := by simp [validateTransaction, h1, h2]
      rw [hcost] at h2
      exact ⟨by simp [hval, not_lt.mp h2], fun hne => absurd hval hne⟩

/-- C2 witness: on the empty chain a 1-coin spend from `"x"` fails with
the insufficient-balance error, and a coinbase is accepted. -/
theorem validateTransaction_spec_witness :
    validateTransaction ⟨[], []⟩ (newTransaction "x" "y" 1) =
      .error (.insufficientBalance "x" 0 1 0) ∧
    validateTransaction ⟨[], []⟩ (newTransaction "" "y" 5) = .ok () := by
  constructor
  · have h := validateTransaction_spec ⟨[], []⟩ (newTransaction "x" "y" 1)
    have hne : validateTransaction ⟨[], []⟩ (newTransaction "x" "y" 1) ≠ .ok () := by
      intro hc
      rw [h.1] at hc
      rcases hc with hc | hc
      · exact absurd hc (by decide)
      · revert hc
        show ¬((1 : ℚ) + 0 ≤ getBalance ⟨[], []⟩ "x")
        show ¬((1 : ℚ) + 0 ≤ 0)
        norm_num
    simpa using h.2 hne
  · exact (validateTransaction_spec ⟨[], []⟩ (newTransaction "" "y" 5)).1.mpr (Or.inl rfl)

/-! ## C3 — the Merkle root against the claim's reference construction

The claim's reference construction, written from its words: a level maps
each pair position `i` to SHA-256 of the concatenation of children `2i`
and `2i+1`, an odd level duplicating its last node; the root is reached by
iterating levels down to one node. The claim starts the leaf level at the
transaction hashes themselves — the source hashes each transaction hash
once more when it builds the leaf nodes, which refutes that reading; the
amended construction differs only in the leaf level. -/

/-- One level of the claim's reference construction (pairs left to right by
index, the last node of an odd level standing in for its missing right
sibling). -/
def merkleRefLevel (l : List (List Nat)) : List (List Nat) :=
  (List.range ((l.length + 1) / 2)).map (fun i =>
    sha256 (l.getD (2 * i) [] ++
      (if 2 * i + 1 < l.length then l.getD (2 * i + 1) [] else l.getD (2 * i) [])))

/-- Iterate the reference level map down to a single node. -/
def merkleRefRoot : Nat → List (List Nat) → Option (List Nat)
  | _, [] => none
  | _, [x] => some x
  | 0, _ => none
  | fuel + 1, l => merkleRefRoot fuel (merkleRefLevel l)

/-- The claim's root as stated: leaves are the transaction hashes. -/
def claimMerkleRoot (txs : List Tx) : String :=
  match merkleRefRoot txs.length (txs.map txHash) with
  | none => ""
  | some h => hexEncode h

/-- The amended root: leaves are SHA-256 of the transaction hashes. -/
def claimMerkleRootAmended (txs : List Tx) : String :=
  match merkleRefRoot txs.length (txs.map (fun t => sha256 (txHash t))) with
  | none => ""
  | some h => hexEncode h

theorem merkleRefLevel_single (x : List Nat) :
    merkleRefLevel [x] = [sha256 (x ++ x)] := by
  simp [merkleRefLevel, show List.range 1 = [0] from rfl]

theorem merkleRefLevel_cons2 (x y : List Nat) (rest : List (List Nat)) :
    merkleRefLevel (x :: y :: rest) = sha256 (x ++ y) :: merkleRefLevel rest := by
  unfold merkleRefLevel
  have hlen : (x :: y :: rest).length = rest.length + 2 := by simp
  rw [hlen]
  have h2 : (rest.length + 2 + 1) / 2 = (rest.length + 1) / 2 + 1 := by omega
  rw [h2, List.range_succ_eq_map, List.map_cons, List.map_map]
  congr 1
  · have hc : (2 * 0 + 1 < rest.length + 2) := by omega
    simp [hc]
  · refine List.map_congr_left ?_
    intro i hi
    rw [List.mem_range] at hi
    simp only [Function.comp, Nat.succ_eq_add_one]
    have e1 : (x :: y :: rest).getD (2 * (i + 1)) [] = rest.getD (2 * i) [] := by
      have h : 2 * (i + 1) = 2 * i + 1 + 1 := by ring
      rw [h, List.getD_cons_succ, List.getD_cons_succ]
    have e2 : (x :: y :: rest).getD (2 * (i + 1) + 1) [] = rest.getD (2 * i + 1) [] := by
      have h : 2 * (i + 1) + 1 = 2 * i + 2 + 1 := by ring
      rw [h, List.getD_cons_succ, List.getD_cons_succ]
    by_cases hc : 2 * i + 1 < rest.length
    · have hc2 : 2 * (i + 1) + 1 < rest.length + 2 := by omega
      rw [if_pos hc2, if_pos hc, e1, e2]
    · have hc2 : ¬(2 * (i + 1) + 1 < rest.length + 2) := by omega
      rw [if_neg hc2, if_neg hc, e1]

theorem merkleLevelUp_eq : ∀ l, merkleLevelUp l = merkleRefLevel l
  | [] => rfl
  | [x] => by rw [show merkleLevelUp [x] = [sha256 (x ++ x)] from rfl, merkleRefLevel_single]
  | x :: y :: rest => by
      rw [show merkleLevelUp (x :: y :: rest) = sha256 (x ++ y) :: merkleLevelUp rest from rfl,
          merkleLevelUp_eq rest, merkleRefLevel_cons2]

theorem merkleRootFrom_eq_ref :
    ∀ (fuel : Nat) (l : List (List Nat)), merkleRootFrom fuel l = merkleRefRoot fuel l := by
  intro fuel
  induction fuel with
  | zero =>
      intro l
      match l with
      | [] => rfl
      | [x] => rfl
      | x :: y :: rest => rfl
  | succ f ih =>
      intro l
      match l with
      | [] => rfl
      | [x] => rfl
      | x :: y :: rest =>
          show merkleRootFrom f (merkleLevelUp (x :: y :: rest)) =
            merkleRefRoot f (merkleRefLevel (x :: y :: rest))
          rw [merkleLevelUp_eq]
          exact ih _

set_option maxRecDepth 100000 in
/-- C3 counterexample: on the one-transaction list the source's root is the
hex of SHA-256 of the transaction hash, not the hex of the transaction hash
itself — the two roots differ, so the claim's leaf level is wrong. -/
theorem merkle_leaf_counterexample :
    getRootHash [newTransaction "a" "b" 1] =
      "9a1d1b83b499cddeaab39538c93a05cab3901759dc0895447e687e91f0442335" ∧
    claimMerkleRoot [newTransaction "a" "b" 1] =
      "dac3c4a3fe4925111ef858cddbd04f1335cf168af792d8cd69a077bad215ae88" ∧
    getRootHash [newTransaction "a" "b" 1] ≠ claimMerkleRoot [newTransaction "a" "b" 1] := by
  refine ⟨by decide, by decide, by decide⟩

/-- C3 (amended). For every transaction list the source's Merkle root hash
equals the claim's reference construction with the leaf level corrected to
the SHA-256 of each transaction hash (the pairing, odd-level duplication,
parent hashing, hex encoding, and empty-list clauses of the claim are as
stated); in particular the empty list yields the empty string. -/
theorem getRootHash_eq_claimAmended :
    (∀ txs : List Tx, getRootHash txs = claimMerkleRootAmended txs) ∧
    getRootHash [] = "" := by
  constructor
  · intro txs
    unfold getRootHash claimMerkleRootAmended merkleLeaves
    rw [merkleRootFrom_eq_ref]
  · rfl

/-! ## C4 — proof-of-work finds the least nonce and validates the target -/

theorem powTry_spec (b : Block) (nonce n : Nat) (s : String) :
    powTry b nonce = some (n, s) →
    powHashInt b nonce < powTarget ∧ n = nonce ∧ s = hexEncode (powHashBytes b nonce) := by
  unfold powTry
  split_ifs with hc
  · intro h
    simp only [Option.some.injEq, Prod.mk.injEq] at h
    exact ⟨hc, h.1.symm, h.2.symm⟩
  · intro h
    exact absurd h (by simp)

theorem powTry_none (b : Block) (nonce : Nat) :
    powTry b nonce = none → powTarget ≤ powHashInt b nonce := by
  unfold powTry
  split_ifs with hc
  · intro h
    exact absurd h (by simp)
  · intro _
    exact not_lt.mp hc

theorem runLoop_spec :
    ∀ (fuel : Nat) (tryNonce : Nat → Option (Nat × String)) (start n : Nat) (s : String),
      runLoop tryNonce fuel start = some (n, s) →
      ∃ k, start ≤ k ∧ tryNonce k = some (n, s) ∧
        ∀ m, start ≤ m → m < k → tryNonce m = none := by
  intro fuel
  induction fuel with
  | zero =>
      intro t start n s h
      change t start = some (n, s) at h
      exact ⟨start, le_refl _, h,
        fun m h1 h2 => absurd (lt_of_le_of_lt h1 h2) (lt_irrefl _)⟩
  | succ f ih =>
      intro t start n s h
      change (match t start with
        | some r => some r
        | none => runLoop t f (start + 1)) = some (n, s) at h
      cases hp : t start with
      | some r =>
          rw [hp] at h
          change some r = some (n, s) at h
          exact ⟨start, le_refl _, hp.trans h,
            fun m h1 h2 => absurd (lt_of_le_of_lt h1 h2) (lt_irrefl _)⟩
      | none =>
          rw [hp] at h
          change runLoop t f (start + 1) = some (n, s) at h
          obtain ⟨k, hk1, hk2, hk3⟩ := ih t (start + 1) n s h
          refine ⟨k, by omega, hk2, ?_⟩
          intro m h1 h2
          rcases Nat.eq_or_lt_of_le h1 with rfl | hlt
          · exact hp
          · exact hk3 m hlt h2

theorem powRunFrom_spec (fuel : Nat) (b : Block) (start n : Nat) (s : String) :
    powRunFrom b fuel start = some (n, s) →
    start ≤ n ∧ powHashInt b n < powTarget ∧
    (∀ m, start ≤ m → m < n → powTarget ≤ powHashInt b m) ∧
    s = hexEncode (powHashBytes b n) := by
  intro h
  obtain ⟨k, hk1, hk2, hk3⟩ := runLoop_spec fuel (powTry b) start n s h
  obtain ⟨hc, rfl, rfl⟩ := powTry_spec b k n s hk2
  exact ⟨hk1, hc, fun m hm1 hm2 => powTry_none b m (hk3 m hm1 hm2), rfl⟩

/-- C4. Whenever `Run` (modelled with fuel, counting nonces up from 0)
returns `(n, s)`, the digest at `n` read as a 256-bit integer is strictly
below `1 <<< (256 − 16)`, every smaller nonce's digest is not, and `s` is
that digest hex-encoded; and `Validate` holds exactly when the digest at
the stored nonce is strictly below the same target. -/
theorem powRun_least_and_validate :
    (∀ (b : Block) (fuel n : Nat) (s : String), powRun b fuel = some (n, s) →
        powHashInt b n < powTarget ∧ (∀ m, m < n → powTarget ≤ powHashInt b m) ∧
        s = hexEncode (powHashBytes b n)) ∧
    (∀ b : Block, powValidate b = true ↔ powHashInt b b.nonce < powTarget) ∧
    powTarget = 2 ^ 240 := by
  refine ⟨?_, ?_, by simp [powTarget, targetBits, Nat.shiftLeft_eq]⟩
  · intro b fuel n s h
    obtain ⟨_, h2, h3, h4⟩ := powRunFrom_spec fuel b 0 n s h
    exact ⟨h2, fun m hm => h3 m (Nat.zero_le m) hm, h4⟩
  · intro b
    show decide (powHashInt b b.nonce < powTarget) = true ↔ _
    exact decide_eq_true_iff

/-- A block (index 7, previous hash "p", Merkle root "m") whose nonce-0
digest already meets the target, found by timestamp search. -/
def c4Block : Block := ⟨7, "2024-01-01T06:09:28Z", [], "m", "p", "", 0⟩

/-! ## C5 — chain merge never shrinks the local chain -/

theorem validateBlockchain_genesis (verify : Tx → Bool) (blocks : List Block) :
    (validateBlockchain verify blocks &&
      !(blocks.head?.elim false (fun b0 => b0.index == 0 && b0.previousHash == "0"))) = false := by
  cases blocks with
  | nil => simp [validateBlockchain]
  | cons b0 rest =>
      simp only [validateBlockchain, List.head?_cons, Option.elim]
      cases h1 : (b0.index == 0) <;> cases h2 : (b0.previousHash == "0") <;> simp [h1, h2]

/-- C5. `MergeBlockchain` never decreases the local chain length; the
resulting block list is the received one exactly when the candidate
validates and is strictly longer (and the local one otherwise); the call
succeeds exactly when the candidate validates (the empty candidate never
validates, `validateBlockchain` of `[]` being `false`); and a candidate
whose head is not a genesis block (index 0, previous hash "0") never
validates. -/
theorem mergeBlockchain_spec (verify : Tx → Bool) (bc : Blockchain) (received : List Block) :
    bc.blocks.length ≤ ((mergeBlockchain verify bc received).2).blocks.length ∧
    ((mergeBlockchain verify bc received).2).blocks =
      (if validateBlockchain verify received = true ∧ bc.blocks.length < received.length
        then received else bc.blocks) ∧
    ((mergeBlockchain verify bc received).1 = .ok () ↔
      validateBlockchain verify received = true) ∧
    validateBlockchain verify [] = false ∧
    (validateBlockchain verify received &&
      !(received.head?.elim false (fun b0 => b0.index == 0 && b0.previousHash == "0"))) =
        false := by
  have hgen := validateBlockchain_genesis verify received
  by_cases he : received.isEmpty
  · have hnil : received = [] := List.isEmpty_iff.mp he
    subst hnil
    refine ⟨?_, ?_, ?_, rfl, hgen⟩ <;>
      simp [mergeBlockchain, validateBlockchain]
  · by_cases hv : validateBlockchain verify received = true
    · by_cases hl : bc.blocks.length < received.length
      · refine ⟨?_, ?_, ?_, rfl, hgen⟩ <;>
          simp [mergeBlockchain, he, hv, hl, le_of_lt hl]
      · refine ⟨?_, ?_, ?_, rfl, hgen⟩ <;>
          simp [mergeBlockchain, he, hv, hl]
    · refine ⟨?_, ?_, ?_, rfl, hgen⟩ <;>
        simp [mergeBlockchain, he, hv]

/-! ## C10 — block admission is atomic on validation failure -/

/-- C10. If any input transaction fails balance validation or signature
verification (`txCheck` yields an error for it), `AddBlockWithReward`
returns an error and leaves the chain state — block list and mempool —
exactly as it was: all validation precedes every mutation. -/
theorem addBlockWithReward_atomic (verify : Tx → Bool) (bc : Blockchain) (txs : List Tx)
    (minerAddress ts : String) (fuel : Nat) :
    txs.any (fun tx => (txCheck verify bc tx).isSome) = true →
    ∃ e, addBlockWithReward verify bc txs minerAddress ts fuel = (.error e, bc) := by
  intro h
  rw [List.any_eq_true] at h
  obtain ⟨tx, htx, hf⟩ := h
  have hsome : ∃ e, firstTxError verify bc txs = some e := by
    cases hfe : firstTxError verify bc txs with
    | some e => exact ⟨e, rfl⟩
    | none =>
        have hnone := List.findSome?_eq_none_iff.mp hfe tx htx
        rw [hnone] at hf
        exact absurd hf (by simp)
  obtain ⟨e, he⟩ := hsome
  exact ⟨e, by simp only [addBlockWithReward, he]⟩

/-- C10 witness: on an empty-chain state, a spend from an unfunded address
fails validation and the state is returned unchanged. -/
theorem addBlockWithReward_atomic_witness :
    (addBlockWithReward (fun _ => true) ⟨[], []⟩ [newTransaction "x" "y" 1] "M" "t" 0).2 =
      ⟨[], []⟩ := by
  obtain ⟨e, he⟩ := addBlockWithReward_atomic (fun _ => true) ⟨[], []⟩
    [newTransaction "x" "y" 1] "M" "t" 0 (by decide)
  rw [he]

/-! ## C8 — the reward transaction and the genesis block -/

set_option maxRecDepth 100000 in
/-- C8 counterexample: the genesis block as constructed carries a single
transaction, the zero-amount coinbase to "Genesis" — no reward transaction
paying 100 coins exists in it. -/
theorem genesis_reward_counterexample :
    (createGenesisBlock genesisTs 0).map (fun b => b.transactions) =
      some [newTransaction "" "Genesis" 0] ∧
    (newTransaction "" "Genesis" 0).amount = 0 ∧ ((0 : ℚ) ≠ 100) := by
  exact ⟨by decide, rfl, by norm_num⟩

/-- C8 (amended). When `AddBlockWithReward` succeeds with a non-empty miner
address, the appended block's transaction list is the freshly constructed
reward transaction — a coinbase of exactly 50 coins to the miner —
prepended to the input transactions. `NewBlockRewardTransaction` with
`isGenesis` pays 100 coins, but it is never invoked for the genesis block:
the genesis block's single transaction is the zero-amount coinbase to
"Genesis". -/
theorem addBlockWithReward_reward_spec :
    (∀ (verify : Tx → Bool) (bc : Blockchain) (txs : List Tx) (m ts : String) (fuel : Nat)
        (bc' : Blockchain),
      addBlockWithReward verify bc txs m ts fuel = (.ok (), bc') → m ≠ "" →
      ∃ blk : Block, bc'.blocks = bc.blocks ++ [blk] ∧
        blk.transactions = newBlockRewardTransaction m false :: txs) ∧
    (∀ m : String, newBlockRewardTransaction m false = newTransaction "" m 50) ∧
    (∀ m : String, (newBlockRewardTransaction m true).amount = 100) ∧
    (∀ (ts : String) (fuel : Nat) (b : Block), createGenesisBlock ts fuel = some b →
      b.transactions = [newTransaction "" "Genesis" 0]) := by
  refine ⟨?_, fun m => rfl, fun m => rfl, ?_⟩
  · intro verify bc txs m ts fuel bc' h hm
    unfold addBlockWithReward at h
    split at h
    · exact absurd (congrArg Prod.fst h) (by simp)
    · split at h
      · exact absurd (congrArg Prod.fst h) (by simp)
      · rw [if_pos hm] at h
        simp only [minePhase] at h
        split at h
        · exact absurd (congrArg Prod.fst h) (by simp)
        · injection h with h1 h2
          subst h2
          exact ⟨_, rfl, rfl⟩
  · intro ts fuel b h
    simp only [createGenesisBlock] at h
    split at h
    · exact absurd h (by simp)
    · obtain rfl := Option.some.inj h
      rfl

/-- The genesis block mined at `genesisTs` (nonce 0). -/
def genesisBlock0 : Block :=
  ⟨0, genesisTs, [newTransaction "" "Genesis" 0],
   "4c4e9b912df56a7ede984781a59f32f19c75fa030d5ff22dcf4ff11195a4d1c1",
   "0", genesisHash, 0⟩

/-- A chain state holding just the mined genesis block. -/
def bcGen : Blockchain := ⟨[genesisBlock0], []⟩

/-- A timestamp at which the reward-only successor block mines at nonce 0. -/
def b1Ts : String := "2024-01-01T10:39:34Z"

/-- The successor block holding only the 50-coin reward to "M". -/
def block1 : Block :=
  ⟨1, b1Ts, [newTransaction "" "M" 50],
   "f7473357f5cc3380c3d6f2f5e33f3bd74c8dae6e6d050cdbbf1f63c1dfe66636",
   genesisHash, "00000400d8db0c61909164717328f331458dece25f36b5403b04ddf672741f8c", 0⟩

set_option maxRecDepth 400000 in
/-- C8 witness: adding a block to the genesis chain with miner "M" and no
input transactions appends a block whose transaction list is exactly the
50-coin reward to "M". -/
theorem addBlockWithReward_reward_spec_witness :
    (addBlockWithReward (fun _ => true) bcGen [] "M" b1Ts 0).2.blocks =
      bcGen.blocks ++ [block1] ∧
    block1.transactions = [newBlockRewardTransaction "M" false] ∧
    (newBlockRewardTransaction "M" false).amount = 50 := by
  have hd : addBlockWithReward (fun _ => true) bcGen [] "M" b1Ts 0 =
      (.ok (), ⟨[genesisBlock0, block1], []⟩) := by decide
  obtain ⟨blk, h1, h2⟩ := addBlockWithReward_reward_spec.1 (fun _ => true) bcGen [] "M" b1Ts 0
    ⟨[genesisBlock0, block1], []⟩ hd (by decide)
  have hblk : blk = block1 := by
    simp [bcGen] at h1
    exact h1.symm
  subst hblk
  exact ⟨by rw [hd]; exact h1, by simpa using h2, rfl⟩

/-! ## C6 — PBFT finalization and the commit quorum

`Finalized` is assigned only inside `ProcessCommit`; a node whose own
`CommitPhase` raises the commit counter to `2f+1` stays in the `commit`
state (for three nodes `f = 0`, so `requiredVotes = 1` and the node's own
commit already reaches the quorum). The claim's "if and only if" therefore
fails; what holds is: finalized states carry a full quorum, and a matching,
non-duplicate commit that reaches the quorum inside `ProcessCommit`
finalizes. -/

theorem prePreparePhase_cases (p : PBFT) (ts : String) :
    (prePreparePhase p ts).2 = p ∨
    ((prePreparePhase p ts).2.state = PBFTState.prePrepare ∧
     (prePreparePhase p ts).2.requiredVotes = p.requiredVotes ∧
     (prePreparePhase p ts).2.nodes = p.nodes) := by
  unfold prePreparePhase
  split_ifs <;> simp

theorem processPrePrepare_cases (p : PBFT) (m : PBFTMessage) :
    (processPrePrepare p m).2 = p ∨
    ((processPrePrepare p m).2.state = PBFTState.prePrepare ∧
     (processPrePrepare p m).2.requiredVotes = p.requiredVotes ∧
     (processPrePrepare p m).2.nodes = p.nodes) := by
  unfold processPrePrepare
  split_ifs <;> simp

theorem preparePhase_cases (p : PBFT) (ts : String) :
    (preparePhase p ts).2 = p ∨
    ((preparePhase p ts).2.state = PBFTState.prepare ∧
     (preparePhase p ts).2.requiredVotes = p.requiredVotes ∧
     (preparePhase p ts).2.nodes = p.nodes) := by
  unfold preparePhase
  split_ifs <;> simp

theorem processPrepare_fields (p : PBFT) (m : PBFTMessage) :
    (processPrepare p m).2.state = p.state ∧
    (processPrepare p m).2.commitCount = p.commitCount ∧
    (processPrepare p m).2.requiredVotes = p.requiredVotes ∧
    (processPrepare p m).2.nodes = p.nodes := by
  unfold processPrepare
  split_ifs
  all_goals simp
  all_goals (split_ifs <;> simp)

theorem commitPhase_cases (p : PBFT) (ts : String) :
    (commitPhase p ts).2 = p ∨
    ((commitPhase p ts).2.state = PBFTState.commit ∧
     (commitPhase p ts).2.requiredVotes = p.requiredVotes ∧
     (commitPhase p ts).2.nodes = p.nodes) := by
  unfold commitPhase
  split_ifs <;> simp

theorem processCommit_cases (p : PBFT) (m : PBFTMessage) :
    (processCommit p m).2 = p ∨
    ((processCommit p m).2.state = p.state ∧
     (processCommit p m).2.commitCount = p.commitCount + 1 ∧
     (processCommit p m).2.requiredVotes = p.requiredVotes ∧
     (processCommit p m).2.nodes = p.nodes) ∨
    ((processCommit p m).2.state = PBFTState.finalized ∧
     (processCommit p m).2.commitCount = p.commitCount + 1 ∧
     (processCommit p m).2.requiredVotes = p.requiredVotes ∧
     (processCommit p m).2.nodes = p.nodes ∧
     p.requiredVotes ≤ p.commitCount + 1) := by
  unfold processCommit
  split_ifs with h1 h2 h3
  · exact Or.inl rfl
  · exact Or.inl rfl
  · exact Or.inl rfl
  · dsimp only
    split_ifs with h4
    · exact Or.inr (Or.inr (by simp [h4]))
    · exact Or.inr (Or.inl (by simp))

/-- C6 (amended). With `f = (n−1)/3` and `requiredVotes = 2f+1` as set by
`NewPBFT` and preserved by every operation: a reachable finalized node's
deduplicated matching commit counter has reached `2f+1`; a `ProcessCommit`
of a matching, non-duplicate commit that brings the counter to `2f+1`
moves the node to finalized; a repeated commit from the same node is a
no-op; and a commit whose sequence, view, or block hash mismatches is
rejected without change. (The converse of the claim's "iff" fails: a
node whose own `CommitPhase` reaches `2f+1` is not finalized — see the
counterexample.) -/
theorem pbft_commit_quorum :
    (∀ p : PBFT, PBFTReachable p →
      (p.state = PBFTState.finalized → p.requiredVotes ≤ p.commitCount) ∧
      p.requiredVotes = 2 * ((p.nodes.length - 1) / 3) + 1) ∧
    (∀ (p : PBFT) (m : PBFTMessage),
      m.sequence = p.sequence → m.viewID = p.viewID → m.blockHash = p.block.hash →
      p.messages.any (fun x => x.type == PBFTMsgType.commit && x.nodeID == m.nodeID) = false →
      p.requiredVotes ≤ p.commitCount + 1 →
      (processCommit p m).2.state = PBFTState.finalized) ∧
    (∀ (p : PBFT) (m : PBFTMessage),
      m.sequence = p.sequence → m.viewID = p.viewID → m.blockHash = p.block.hash →
      p.messages.any (fun x => x.type == PBFTMsgType.commit && x.nodeID == m.nodeID) = true →
      (processCommit p m).2 = p) ∧
    (∀ (p : PBFT) (m : PBFTMessage),
      (m.sequence ≠ p.sequence ∨ m.viewID ≠ p.viewID ∨ m.blockHash ≠ p.block.hash) →
      (processCommit p m).2 = p) := by
  refine ⟨?_, ?_, ?_, ?_⟩
  · intro p h
    induction h with
    | new nodeID nodes block sequence =>
        refine ⟨fun hst => ?_, by simp [newPBFT]⟩
        simp [newPBFT] at hst
    | prePrep p ts hr ih =>
        rcases prePreparePhase_cases p ts with h | ⟨h1, h2, h3⟩
        · rw [h]; exact ih
        · refine ⟨fun hst => ?_, by rw [h2, h3]; exact ih.2⟩
          rw [h1] at hst
          exact absurd hst (by simp)
    | procPrePrep p m hr ih =>
        rcases processPrePrepare_cases p m with h | ⟨h1, h2, h3⟩
        · rw [h]; exact ih
        · refine ⟨fun hst => ?_, by rw [h2, h3]; exact ih.2⟩
          rw [h1] at hst
          exact absurd hst (by simp)
    | prep p ts hr ih =>
        rcases preparePhase_cases p ts with h | ⟨h1, h2, h3⟩
        · rw [h]; exact ih
        · refine ⟨fun hst => ?_, by rw [h2, h3]; exact ih.2⟩
          rw [h1] at hst
          exact absurd hst (by simp)
    | procPrep p m hr ih =>
        obtain ⟨h1, h2, h3, h4⟩ := processPrepare_fields p m
        refine ⟨fun hst => ?_, by rw [h3, h4]; exact ih.2⟩
        rw [h1] at hst
        rw [h2, h3]
        exact ih.1 hst
    | commitPh p ts hr ih =>
        rcases commitPhase_cases p ts with h | ⟨h1, h2, h3⟩
        · rw [h]; exact ih
        · refine ⟨fun hst => ?_, by rw [h2, h3]; exact ih.2⟩
          rw [h1] at hst
          exact absurd hst (by simp)
    | procCommit p m hr ih =>
        rcases processCommit_cases p m with h | ⟨h1, h2, h3, h4⟩ | ⟨h1, h2, h3, h4, h5⟩
        · rw [h]; exact ih
        · refine ⟨fun hst => ?_, by rw [h3, h4]; exact ih.2⟩
          rw [h1] at hst
          rw [h2, h3]
          exact le_trans (ih.1 hst) (Nat.le_succ _)
        · refine ⟨fun _ => ?_, by rw [h3, h4]; exact ih.2⟩
          rw [h2, h3]
          exact h5
  · intro p m h1 h2 h3 hdup hq
    simp [processCommit, h1, h2, h3, hdup, hq]
  · intro p m h1 h2 h3 hdup
    simp [processCommit, h1, h2, h3, hdup]
  · intro p m hne
    rcases hne with h | h | h
    · simp [processCommit, h]
    · simp [processCommit, h]
    · by_cases hsv : m.sequence ≠ p.sequence ∨ m.viewID ≠ p.viewID
      · simp [processCommit, hsv]
      · simp [processCommit, hsv, h]

/-- A fixed block proposed to the PBFT instances below (hash "h"). -/
def pbftBlockW : Block := ⟨0, "t", [], "m", "p", "h", 0⟩

/-- A three-node instance at node "A" (`f = 0`, `requiredVotes = 1`). -/
def pbft0 : PBFT := newPBFT "A" ["A", "B", "C"] pbftBlockW 0

/-- After the primary's pre-prepare. -/
def pbft1 : PBFT := (prePreparePhase pbft0 "t1").2

/-- After broadcasting one's own prepare. -/
def pbft2 : PBFT := (preparePhase pbft1 "t2").2

/-- Node B's prepare message. -/
def prepB : PBFTMessage := ⟨.prepare, "h", "B", 0, 0, "t3", ""⟩

/-- After receiving B's prepare (quorum, `prepared`). -/
def pbft3 : PBFT := (processPrepare pbft2 prepB).2

/-- After broadcasting one's own commit: the commit counter reaches
`requiredVotes = 1`, but the state is `commit`, not `finalized`. -/
def pbft4 : PBFT := (commitPhase pbft3 "t4").2

/-- Node B's commit message. -/
def commitB : PBFTMessage := ⟨.commit, "h", "B", 0, 0, "t5", ""⟩

/-- After receiving B's commit inside `ProcessCommit`: finalized. -/
def pbft5 : PBFT := (processCommit pbft4 commitB).2

theorem pbft4_reachable : PBFTReachable pbft4 :=
  PBFTReachable.commitPh _ _ (PBFTReachable.procPrep _ _ (PBFTReachable.prep _ _
    (PBFTReachable.prePrep _ _ (PBFTReachable.new _ _ _ _))))

theorem pbft5_reachable : PBFTReachable pbft5 :=
  PBFTReachable.procCommit _ _ pbft4_reachable

set_option maxRecDepth 200000 in
/-- C6 counterexample: a reachable three-node instance whose commit counter
has reached `2f+1 = 1` (via its own `CommitPhase`) yet whose state is not
finalized — the claim's "if and only if" fails in this direction. -/
theorem pbft_quorum_counterexample :
    PBFTReachable pbft4 ∧
    pbft4.requiredVotes = 1 ∧ pbft4.commitCount = 1 ∧
    pbft4.nodes.length = 3 ∧
    pbft4.state ≠ PBFTState.finalized :=
  ⟨pbft4_reachable, by decide, by decide, by decide, by decide⟩

set_option maxRecDepth 200000 in
/-- C6 witness: the finalized successor state carries a full quorum; the
finalizing `ProcessCommit` and the duplicate-commit no-op behave as the
amended claim states. -/
theorem pbft_commit_quorum_witness :
    pbft5.state = PBFTState.finalized ∧
    pbft5.requiredVotes ≤ pbft5.commitCount ∧
    (processCommit pbft4 commitB).2.state = PBFTState.finalized ∧
    (processCommit pbft5 commitB).2 = pbft5 := by
  refine ⟨by decide, ?_, ?_, ?_⟩
  · exact (pbft_commit_quorum.1 pbft5 pbft5_reachable).1 (by decide)
  · exact pbft_commit_quorum.2.1 pbft4 commitB (by decide) (by decide) (by decide)
      (by decide) (by decide)
  · exact pbft_commit_quorum.2.2.1 pbft5 commitB (by decide) (by decide) (by decide)
      (by decide)

/-! ## C7 — payment-channel state invariants

`CommitState` verifies only that both signature strings are non-empty and
that the carried sequence number strictly exceeds the current one; it does
not inspect the carried balances, so an arbitrary doubly-signed state —
non-conserving, negative — becomes the current state. Conservation and
non-negativity are enforced only where proposals are built (`UpdateState`,
and `MicroPayment` for non-negative amounts over non-negative balances). -/

/-- A chain state funding "P1" with 20 and "P2" with 10 (raw coinbases). -/
def bcChan : Blockchain :=
  ⟨[⟨0, "ts", [newTransaction "" "P1" 20, newTransaction "" "P2" 10], "", "0", "", 0⟩], []⟩

/-- The channel id of ("P1", "P2") at `UnixNano = 7`. -/
def chanID0 : String := "38228f089396c0562a94a5dd0ad062f36095e0e8fd64ef713710a0f8ccf7588b"

/-- The initial channel state with deposits (20, 10). -/
def chanInit : ChannelState := ⟨chanID0, "P1", "P2", 20, 10, 0, 0, "ts", false, ""⟩

/-- The channel as `CreateChannel` builds it. -/
def pcInit : PaymentChannel :=
  ⟨chanInit, chanInit, 30, "Mbdc14f29327bc997434047cb96423fef5428f9ff", 3600, "ts", "ts",
   [], [chanInit]⟩

/-- A doubly-"signed" state with a negative, non-conserving balance pair. -/
def badState : ChannelState := ⟨chanID0, "P1", "P2", -5, 5, 1, 1, "t2", false, ""⟩

/-- `badState` with two non-empty signature strings. -/
def badSigned : ChannelSignature := ⟨badState, "s1", "s2"⟩

set_option maxRecDepth 100000 in
/-- C7 counterexample: `CommitState` accepts `badSigned` on the freshly
created (20, 10) channel, installing a current state with balance1 = −5
and balance sum 0 ≠ 30 — conservation and non-negativity do not hold over
every operation sequence. -/
theorem channel_commit_counterexample :
    createChannel bcChan "P1" "P2" 20 10 3600 7 "ts" = .ok pcInit ∧
    (commitState pcInit badSigned "t3").1 = .ok () ∧
    (commitState pcInit badSigned "t3").2.state.balance1 = -5 ∧
    (commitState pcInit badSigned "t3").2.state.balance2 = 5 ∧
    pcInit.initialState.balance1 + pcInit.initialState.balance2 = 30 ∧
    ((-5 : ℚ) < 0) ∧ ((-5 : ℚ) + 5 ≠ 30) := by
  refine ⟨by decide, by decide, by decide, by decide, ?_, by norm_num, by norm_num⟩
  show (20 : ℚ) + 10 = 30
  norm_num

/-- C7 (amended). Proposals built by `UpdateState` preserve the balance
sum, keep both balances non-negative and advance the sequence number by
one, leaving the current state untouched; `MicroPayment` proposals do the
same for a non-negative amount over non-negative balances; and a
successful `CommitState` installs exactly the carried state, with a
strictly increased sequence number. (`CommitState` checks nothing else
about the carried state — see the counterexample.) -/
theorem channel_state_invariants :
    (∀ (pc : PaymentChannel) (b1 b2 : ℚ) (ts : String) (st : ChannelState)
        (pc' : PaymentChannel),
      updateState pc b1 b2 ts = (.ok st, pc') →
      st.balance1 + st.balance2 = pc.state.balance1 + pc.state.balance2 ∧
      0 ≤ st.balance1 ∧ 0 ≤ st.balance2 ∧
      st.sequenceNumber = pc.state.sequenceNumber + 1 ∧
      pc'.state = pc.state) ∧
    (∀ (pc : PaymentChannel) (sender : String) (amount : ℚ) (ts : String) (st : ChannelState),
      microPayment pc sender amount ts = .ok st →
      0 ≤ amount → 0 ≤ pc.state.balance1 → 0 ≤ pc.state.balance2 →
      st.balance1 + st.balance2 = pc.state.balance1 + pc.state.balance2 ∧
      0 ≤ st.balance1 ∧ 0 ≤ st.balance2 ∧
      st.sequenceNumber = pc.state.sequenceNumber + 1) ∧
    (∀ (pc : PaymentChannel) (signed : ChannelSignature) (ts : String) (pc' : PaymentChannel),
      commitState pc signed ts = (.ok (), pc') →
      pc.state.sequenceNumber < pc'.state.sequenceNumber ∧ pc'.state = signed.state) := by
  refine ⟨?_, ?_, ?_⟩
  · intro pc b1 b2 ts st pc' h
    simp only [updateState] at h
    split_ifs at h with hcl htot hneg
    · exact absurd (congrArg Prod.fst h) (by simp)
    · exact absurd (congrArg Prod.fst h) (by simp)
    · exact absurd (congrArg Prod.fst h) (by simp)
    · injection h with h1 h2
      obtain rfl := Except.ok.inj h1
      subst h2
      push_neg at hneg
      push_neg at htot
      rw [ratAdd_eq, ratAdd_eq] at htot
      exact ⟨htot, hneg.1, hneg.2, rfl, rfl⟩
  · intro pc sender amount ts st h ha hb1 hb2
    simp only [microPayment] at h
    split_ifs at h with hcl hs1 hlow1 hs2 hlow2
    · obtain rfl := Except.ok.inj h
      push_neg at hlow1
      refine ⟨?_, ?_, ?_, rfl⟩
      · show ratSub pc.state.balance1 amount + ratAdd pc.state.balance2 amount =
          pc.state.balance1 + pc.state.balance2
        rw [ratSub_eq, ratAdd_eq]
        ring
      · show (0 : ℚ) ≤ ratSub pc.state.balance1 amount
        rw [ratSub_eq]
        linarith
      · show (0 : ℚ) ≤ ratAdd pc.state.balance2 amount
        rw [ratAdd_eq]
        linarith
    · obtain rfl := Except.ok.inj h
      push_neg at hlow2
      refine ⟨?_, ?_, ?_, rfl⟩
      · show ratAdd pc.state.balance1 amount + ratSub pc.state.balance2 amount =
          pc.state.balance1 + pc.state.balance2
        rw [ratSub_eq, ratAdd_eq]
        ring
      · show (0 : ℚ) ≤ ratAdd pc.state.balance1 amount
        rw [ratAdd_eq]
        linarith
      · show (0 : ℚ) ≤ ratSub pc.state.balance2 amount
        rw [ratSub_eq]
        linarith
  · intro pc signed ts pc' h
    simp only [commitState] at h
    split_ifs at h with hcl hsig hseq
    · exact absurd (congrArg Prod.fst h) (by simp)
    · exact absurd (congrArg Prod.fst h) (by simp)
    · exact absurd (congrArg Prod.fst h) (by simp)
    · injection h with h1 h2
      subst h2
      exact ⟨not_le.mp hseq, rfl⟩

/-- The proposal (19.5, 10.5) at sequence 1 on the (20, 10) channel. -/
def propState : ChannelState :=
  ⟨chanID0, "P1", "P2", mkRat 39 2, mkRat 21 2, 1, 1, "t4", false, ""⟩

/-- `propState` with both signature strings present. -/
def goodSigned : ChannelSignature := ⟨propState, "s1", "s2"⟩

/-- The channel after committing `goodSigned`. -/
def pcCommitted : PaymentChannel :=
  ⟨propState, chanInit, 30, "Mbdc14f29327bc997434047cb96423fef5428f9ff", 3600, "ts", "t5",
   [], [chanInit, propState]⟩

set_option maxRecDepth 100000 in
/-- C7 witness: the (19.5, 10.5) proposal conserves the 30-coin total with
non-negative balances at sequence 1, and committing it advances the
current sequence number. -/
theorem channel_state_invariants_witness :
    propState.balance1 + propState.balance2 = pcInit.state.balance1 + pcInit.state.balance2 ∧
    0 ≤ propState.balance1 ∧ 0 ≤ propState.balance2 ∧
    propState.sequenceNumber = pcInit.state.sequenceNumber + 1 ∧
    pcInit.state.sequenceNumber < pcCommitted.state.sequenceNumber := by
  have h1 := channel_state_invariants.1 pcInit (mkRat 39 2) (mkRat 21 2) "t4" propState
    { pcInit with pendingUpdates := [propState] } (by decide)
  have h3 := channel_state_invariants.2.2 pcInit goodSigned "t5" pcCommitted (by decide)
  exact ⟨h1.1, h1.2.1, h1.2.2.1, h1.2.2.2.1, h3.1⟩

/-! ## C9 — proof-of-stake selection and map iteration order

`SelectValidator` walks `Stakeholders` — a Go map — with `range`, whose
iteration order Go deliberately randomizes between invocations; and since
`hashInt / 1e38 × totalStake` dwarfs every running sum, the walk falls
through to the "first stakeholder" of a second `range` loop. Two
invocations on the same block and the same table may therefore return
different addresses, though the function's own comment calls the seeded
selection deterministic. -/

/-- The candidate block of the selection runs (previous hash "p", Merkle
root "m"). -/
def posBlock9 : Block := ⟨0, "t", [], "m", "p", "", 0⟩

set_option maxRecDepth 100000 in
/-- C9: the same stake table `«A» ↦ 1, «B» ↦ 1` — one list per iteration
order — and the same block yield different validators, refuting
determinism of `SelectValidator` in its inputs; the divergence is decided
entirely by the map iteration order. -/
theorem selectValidator_order_dependent :
    List.Perm [("A", (1 : ℚ)), ("B", (1 : ℚ))] [("B", (1 : ℚ)), ("A", (1 : ℚ))] ∧
    selectValidator ⟨posBlock9, [("A", 1), ("B", 1)]⟩ = "A" ∧
    selectValidator ⟨posBlock9, [("B", 1), ("A", 1)]⟩ = "B" ∧
    "A" ≠ "B" :=
  ⟨List.Perm.swap _ _ _, by decide, by decide, by decide⟩

set_option maxRecDepth 100000 in
/-- C4 witness: at `c4Block` the search returns nonce 0 with the digest
below the target, the returned string is the digest's hex, and `Validate`
accepts the block (its stored nonce is 0). -/
theorem powRun_least_and_validate_witness :
    powHashInt c4Block 0 < powTarget ∧
    "00000cdd8e8aa7849cfd71c4acc8e5ba93a4715d6624b0715a6a58df3a7244f0" =
      hexEncode (powHashBytes c4Block 0) ∧
    powValidate c4Block = true := by
  obtain ⟨h1, _, h3⟩ := powRun_least_and_validate.1 c4Block 0 0
    "00000cdd8e8aa7849cfd71c4acc8e5ba93a4715d6624b0715a6a58df3a7244f0" (by decide)
  exact ⟨h1, h3, (powRun_least_and_validate.2.1 c4Block).mpr h1⟩

end LearnBlockchain
